import Mathlib

/-!
# Verification of the TDA cache engine (`tda_runner.py`)

A shallow embedding of the test-time adaptation runner:
per-class caches with loss-ranked eviction (`update_cache`),
the affinity-weighted scorer (`compute_cache_logits`),
telemetry byte-size accounting (`get_tensor_size`,
`compute_real_cache_size`) and the per-sample adaptation loop
(`run_test_tda`).

Numeric values that the code only ever compares or adds exactly
(losses, probabilities, thresholds, entropy) are modelled as `ℚ`;
quantities flowing through `exp` (kernel weights, logits) live in `ℝ`.
Python exceptions are modelled with `Except`: each division that can
raise `ZeroDivisionError` is tagged with the source line it occurs on.
Python's `sorted` (a stable sort) is modelled by a stable insertion
sort, which computes the same list as any stable sort by the same key.
-/

namespace TDA

/-- A runtime value as seen by the telemetry code: either a torch
tensor (with an element size and an element count, the only data
`get_tensor_size` reads) or a plain non-tensor scalar. -/
inductive Value where
  | tensor (elemSize : ℕ) (numel : ℕ)
  | scalar (x : ℚ)
deriving DecidableEq

/-- Python exceptions raised by `tda_runner.py`, tagged where needed by
the source line that raises them. -/
inductive Err where
  | keyError (key : String)     -- missing config key (dict lookup)
  | valueError                  -- get_tensor_size on a non-tensor
  | indexError                  -- item[2] on a two-element item
  | runtimeError                -- torch.cat of an empty list
  | zeroDivision (line : ℕ)     -- ZeroDivisionError at a given line
deriving DecidableEq

/-- One cached item, `[features, loss]` or `[features, loss, prob_map]`.
Each slot carries its numeric content and the `Value` (tensor object)
the telemetry code sees. -/
structure CacheItem where
  feat : List ℚ
  featT : Value
  loss : ℚ
  lossT : Value
  probMap : Option (List ℚ)
  probMapT : Option Value
deriving DecidableEq

instance : Inhabited CacheItem := ⟨⟨[], Value.scalar 0, 0, Value.scalar 0, none, none⟩⟩

/-- A cache: a Python dict from predicted class label to the list of
cached items, in insertion order of the keys. -/
abbrev Cache : Type := List (ℕ × List CacheItem)

/-- Dict lookup `cache[pred]` (as an `Option`): the value at the first
(and, keys being unique, only) binding of the key. -/
def lookupC : Cache → ℕ → Option (List CacheItem)
  | [], _ => none
  | kb :: t, k => if kb.1 = k then some kb.2 else lookupC t k

/-- Dict assignment `cache[pred] = v`: replaces the binding in place if
the key exists, otherwise appends it (Python dicts preserve insertion
order). -/
def setC : Cache → ℕ → List CacheItem → Cache
  | [], k, v => [(k, v)]
  | kb :: t, k, v => if kb.1 = k then (k, v) :: t else kb :: setC t k v

/-- The empty cache `{}`. -/
def emptyC : Cache := []

/-- Python dict truthiness: `bool(cache)` is `False` iff it has no keys. -/
def isEmptyC (c : Cache) : Bool := c.isEmpty

/-- The `key=operator.itemgetter(1)` comparison: order items by loss. -/
def lossLE (x y : CacheItem) : Prop := x.loss ≤ y.loss

instance : DecidableRel lossLE := fun a b => inferInstanceAs (Decidable (a.loss ≤ b.loss))

instance : IsTotal CacheItem lossLE := ⟨fun a b => le_total a.loss b.loss⟩

instance : IsTrans CacheItem lossLE := ⟨fun _ _ _ h1 h2 => le_trans h1 h2⟩

/-- `sorted(bucket, key=operator.itemgetter(1))`: Python's `sorted` is a
stable sort, and every stable sort by `loss` computes the same list, so
it is modelled by stable insertion sort. -/
def sortByLoss (l : List CacheItem) : List CacheItem := l.insertionSort lossLE

/-- Ascending-by-loss order of a bucket. -/
def SortedLoss (l : List CacheItem) : Prop := l.Sorted lossLE

instance (l : List CacheItem) : Decidable (SortedLoss l) :=
  inferInstanceAs (Decidable (List.Pairwise lossLE l))

/-- `bucket[-1][1]`, the loss of the last element (never called on an
empty bucket in reachable states; totalised with a default). -/
def lossLast (b : List CacheItem) : ℚ := (b.getLastD default).loss

/-- Line 29: `item` is `features_loss` itself (a two-slot list, no
probability map) when `include_prob_map` is false, and all three slots
when it is true. -/
def storedItem (include_prob_map : Bool) (features_loss : CacheItem) : CacheItem :=
  if include_prob_map then features_loss
  else { features_loss with probMap := none, probMapT := none }

/-- Lines 31–35, the existing-bucket path of `update_cache`: append
while below capacity, else replace the last (maximum-loss) element when
the new loss beats it, else keep the bucket; then re-sort by loss. -/
def bucketAfter (bucket : List CacheItem) (features_loss : CacheItem)
    (shot_capacity : ℕ) (include_prob_map : Bool) : List CacheItem :=
  sortByLoss
    (if bucket.length < shot_capacity then bucket ++ [storedItem include_prob_map features_loss]
     else if features_loss.loss < lossLast bucket then
       bucket.dropLast ++ [storedItem include_prob_map features_loss]
     else bucket)

/-- `update_cache(cache, pred, features_loss, shot_capacity,
include_prob_map)` from `tda_runner.py` lines 26–37. -/
def update_cache (cache : Cache) (pred : ℕ) (features_loss : CacheItem)
    (shot_capacity : ℕ) (include_prob_map : Bool) : Cache :=
  match lookupC cache pred with
  | some bucket => setC cache pred (bucketAfter bucket features_loss shot_capacity include_prob_map)
  | none => setC cache pred [storedItem include_prob_map features_loss]

/-- Total number of entries stored across all buckets of a cache. -/
def totalEntries (c : Cache) : ℕ := (c.map (fun kb => kb.2.length)).sum

/-- Whether some bucket of the cache contains an item with the given
feature vector. -/
def featInCache (f : List ℚ) (c : Cache) : Bool :=
  c.any (fun kb => kb.2.any (fun it => decide (it.feat = f)))

/-- Losses of the bucket stored for a label (empty if absent). -/
def bucketLosses (c : Cache) (k : ℕ) : List ℚ :=
  ((lookupC c k).getD []).map (fun it => it.loss)

/-- Fold a list of `(pred, item)` updates into a cache born empty. -/
def applyUpdates (cap : ℕ) (flag : Bool) (upds : List (ℕ × CacheItem)) : Cache :=
  upds.foldl (fun c pu => update_cache c pu.1 pu.2 cap flag) emptyC

/-! ## The affinity scorer -/

/-- Insert into a sorted list of naturals. -/
def insertNat (a : ℕ) : List ℕ → List ℕ
  | [] => [a]
  | b :: bs => if b < a then b :: insertNat a bs else a :: b :: bs

/-- `sorted(cache.keys())`. -/
def sortNat : List ℕ → List ℕ
  | [] => []
  | a :: as => insertNat a (sortNat as)

/-- The per-entry enumeration of `compute_cache_logits` lines 44–50:
all stored items, grouped by class label in ascending label order,
each paired with its owning label. -/
def flattenCache (c : Cache) : List (ℕ × CacheItem) :=
  (sortNat (c.map (fun kb => kb.1))).flatMap
    (fun k => ((lookupC c k).getD []).map (fun it => (k, it)))

/-- `F.one_hot(class_index, num_classes)` as a list of 0/1 rationals. -/
def oneHot (numClasses : ℕ) (k : ℕ) : List ℚ :=
  (List.range numClasses).map (fun j => if j = k then 1 else 0)

/-- Dot product of two rational vectors (`image_features @ cache_keys`
pairs the query row with each stored key row). -/
def dotQ (q k : List ℚ) : ℚ := (List.zipWith (· * ·) q k).sum

/-- The value row appended for one stored item (lines 46–50 and the
mask of lines 53–55): in negative mode the elementwise window test
`(p > lower) & (p < upper)` on the stored probability map (`item[2]`,
an `IndexError` when the item has none), in positive mode the one-hot
row of the owning class. -/
def valueRow (numClasses : ℕ) (neg_mask_thresholds : Option (ℚ × ℚ))
    (class_index : ℕ) (item : CacheItem) : Except Err (List ℚ) :=
  match neg_mask_thresholds with
  | some lohi =>
      match item.probMap with
      | some pm =>
          Except.ok (pm.map (fun p => if decide (lohi.1 < p) && decide (p < lohi.2) then (1 : ℚ) else 0))
      | none => Except.error Err.indexError
  | none => Except.ok (oneHot numClasses class_index)

/-- The per-entry kernel weight of line 60:
`((-1) * (beta - beta * affinity)).exp()`. -/
noncomputable def kernelWeight (beta affinity : ℝ) : ℝ :=
  Real.exp ((-1) * (beta - beta * affinity))

/-- The kernel weights of all stored entries against a query, in the
scorer's entry order. -/
noncomputable def weightsOf (image_features : List ℚ) (c : Cache) (beta : ℚ) : List ℝ :=
  (flattenCache c).map (fun ki => kernelWeight (beta : ℝ) ((dotQ image_features ki.2.feat : ℚ) : ℝ))

/-- Component `cls` of the weighted sum `w @ value_matrix`. -/
noncomputable def sumWeighted (ws : List ℝ) (values : List (List ℚ)) (cls : ℕ) : ℝ :=
  ((ws.zip values).map (fun wv => wv.1 * ((wv.2.getD cls 0 : ℚ) : ℝ))).sum

/-- `compute_cache_logits(image_features, cache, alpha, beta,
clip_weights, neg_mask_thresholds)` from lines 39–61.  The entry loop
(which can raise `IndexError` on `item[2]`) runs before
`torch.cat(cache_keys)`, which raises a `RuntimeError` when no entry
was collected. -/
noncomputable def compute_cache_logits (image_features : List ℚ) (cache : Cache)
    (alpha beta : ℚ) (numClasses : ℕ) (neg_mask_thresholds : Option (ℚ × ℚ)) :
    Except Err (List ℝ) := do
  let entries := flattenCache cache
  let values ← entries.mapM (fun ki => valueRow numClasses neg_mask_thresholds ki.1 ki.2)
  if entries.isEmpty then Except.error Err.runtimeError
  else
    Except.ok ((List.range numClasses).map
      (fun cls => ((alpha : ℚ) : ℝ) * sumWeighted (weightsOf image_features cache beta) values cls))

/-- The spec's NegativeMask operation, stated from its words: for each
element `p` of a stored probability map, `1` if
`mask_threshold.lower < p < mask_threshold.upper`, else `0`. -/
def negMaskVec (lower upper : ℚ) (pm : List ℚ) : List ℚ :=
  pm.map (fun p => if lower < p ∧ p < upper then 1 else 0)

/-! ## Telemetry -/

/-- `get_tensor_size(tensor)` from lines 63–77: raises `ValueError` on a
non-tensor, otherwise `element_size() * numel()`. -/
def get_tensor_size : Value → Except Err ℕ
  | Value.tensor elemSize numel => Except.ok (elemSize * numel)
  | Value.scalar _ => Except.error Err.valueError

/-- The `Value`s of `item[1:]` (the metadata slots after the feature). -/
def metaValues (it : CacheItem) : List Value :=
  it.lossT :: it.probMapT.toList

/-- `compute_real_cache_size(cache)` from lines 80–91: feature size plus
the sum of the metadata sizes, over every item of every bucket. -/
def compute_real_cache_size (c : Cache) : Except Err ℕ := do
  let sizes ← (c.flatMap (fun kb => kb.2)).mapM (fun it => do
    let featureSize ← get_tensor_size it.featT
    let metadataSize ← (metaValues it).foldlM (fun acc v => do
      let s ← get_tensor_size v
      Except.ok (acc + s)) 0
    Except.ok (featureSize + metadataSize))
  Except.ok sizes.sum

/-! ## Configuration and the adaptation loop -/

/-- A `{lower, upper}` threshold window from the config. -/
structure ThresholdW where
  lower : ℚ
  upper : ℚ
deriving DecidableEq

/-- The positive-cache config dict: `enabled` plus the possibly-missing
hyperparameter keys read at lines 104–105. -/
structure PosCfg where
  enabled : Bool
  shot_capacity : Option ℕ
  alpha : Option ℚ
  beta : Option ℚ

/-- The negative-cache config dict (keys read at lines 106–107). -/
structure NegCfg where
  enabled : Bool
  shot_capacity : Option ℕ
  alpha : Option ℚ
  beta : Option ℚ
  entropy_threshold : Option ThresholdW
  mask_threshold : Option ThresholdW

/-- The unpacked positive hyperparameters (`pos_params`). -/
structure PosParams where
  shot_capacity : ℕ
  alpha : ℚ
  beta : ℚ
deriving DecidableEq

/-- The unpacked negative hyperparameters (`neg_params`). -/
structure NegParams where
  shot_capacity : ℕ
  alpha : ℚ
  beta : ℚ
  entropy_threshold : ThresholdW
  mask_threshold : ThresholdW
deriving DecidableEq

/-- A Python dict key read: `KeyError` when the key is absent. -/
def getKey {α : Type} (o : Option α) (k : String) : Except Err α :=
  match o with
  | some v => Except.ok v
  | none => Except.error (Err.keyError k)

/-- `{k: pos_cfg[k] for k in ['shot_capacity', 'alpha', 'beta']}`
(line 105), reading the keys in order. -/
def unpackPos (cfg : PosCfg) : Except Err PosParams := do
  let sc ← getKey cfg.shot_capacity "shot_capacity"
  let a ← getKey cfg.alpha "alpha"
  let b ← getKey cfg.beta "beta"
  Except.ok ⟨sc, a, b⟩

/-- The corresponding comprehension for `neg_params` (line 107). -/
def unpackNeg (cfg : NegCfg) : Except Err NegParams := do
  let sc ← getKey cfg.shot_capacity "shot_capacity"
  let a ← getKey cfg.alpha "alpha"
  let b ← getKey cfg.beta "beta"
  let et ← getKey cfg.entropy_threshold "entropy_threshold"
  let mt ← getKey cfg.mask_threshold "mask_threshold"
  Except.ok ⟨sc, a, b, et, mt⟩

/-- Lines 103–107: read the `enabled` flags and unpack the
hyperparameters of each enabled side, before the sample loop starts. -/
def setupParams (pos_cfg : PosCfg) (neg_cfg : NegCfg) :
    Except Err (Option PosParams × Option NegParams) := do
  let pp ← if pos_cfg.enabled then (unpackPos pos_cfg).map some else pure none
  let np ← if neg_cfg.enabled then (unpackNeg neg_cfg).map some else pure none
  Except.ok (pp, np)

/-- One test sample, carrying the classifier outputs of line 113.
`get_clip_logits` and `get_entropy` live in `utils` (not in the
repository snapshot); modelled from the spec: the classifier supplies
the feature embedding, baseline logits, scalar loss, probability map
and predicted label, `prop_entropy` is the normalized entropy
`loss / log(num_classes)` derived from the loss, and the tensor slots
carry the runtime objects the telemetry code measures. -/
structure Sample where
  imageFeatures : List ℚ
  featT : Value
  clipLogits : List ℚ
  loss : ℚ
  lossT : Value
  probMap : List ℚ
  probMapT : Value
  propEntropy : ℚ
  pred : ℕ
  target : ℕ

/-- The two-slot item `[image_features, loss]` passed at line 117. -/
def posItem (s : Sample) : CacheItem :=
  ⟨s.imageFeatures, s.featT, s.loss, s.lossT, none, none⟩

/-- The three-slot item `[image_features, loss, prob_map]` passed at
line 120. -/
def negItem (s : Sample) : CacheItem :=
  ⟨s.imageFeatures, s.featT, s.loss, s.lossT, some s.probMap, some s.probMapT⟩

/-- The positive cache as it stands when the scorer reads it at
line 127: the current sample's update (line 117) has already been
applied. -/
def posCacheAtScore (pp : Option PosParams) (pos_cache : Cache) (s : Sample) : Cache :=
  match pp with
  | some p => update_cache pos_cache s.pred (posItem s) p.shot_capacity false
  | none => pos_cache

/-- The negative cache as it stands when the scorer reads it at
line 129: updated at line 120 only when the entropy gate
`lower < prop_entropy < upper` of line 119 passed. -/
def negCacheAtScore (np : Option NegParams) (neg_cache : Cache) (s : Sample) : Cache :=
  match np with
  | some p =>
      if p.entropy_threshold.lower < s.propEntropy ∧ s.propEntropy < p.entropy_threshold.upper then
        update_cache neg_cache s.pred (negItem s) p.shot_capacity true
      else neg_cache
  | none => neg_cache

/-- Cast a rational vector (the baseline `clip_logits`) to `ℝ`. -/
noncomputable def qListToR (l : List ℚ) : List ℝ := l.map (fun x => (x : ℝ))

/-- Elementwise `final_logits += adjustment`. -/
noncomputable def addRL (base adj : List ℝ) : List ℝ := List.zipWith (· + ·) base adj

/-- Elementwise `final_logits -= adjustment`. -/
noncomputable def subRL (base adj : List ℝ) : List ℝ := List.zipWith (· - ·) base adj

/-- Line 126–127: `if pos_enabled and pos_cache:` add the positive
cache logits to the running logits. -/
noncomputable def posAdjust (pp : Option PosParams) (numClasses : ℕ) (pos_cache : Cache)
    (s : Sample) (base : List ℝ) : Except Err (List ℝ) :=
  match pp with
  | some p =>
      if isEmptyC pos_cache then Except.ok base
      else (compute_cache_logits s.imageFeatures pos_cache p.alpha p.beta numClasses none).map
        (fun adj => addRL base adj)
  | none => Except.ok base

/-- Lines 128–130: `if neg_enabled and neg_cache:` subtract the
negative cache logits, scoring with the mask thresholds. -/
noncomputable def negAdjust (np : Option NegParams) (numClasses : ℕ) (neg_cache : Cache)
    (s : Sample) (base : List ℝ) : Except Err (List ℝ) :=
  match np with
  | some p =>
      if isEmptyC neg_cache then Except.ok base
      else (compute_cache_logits s.imageFeatures neg_cache p.alpha p.beta numClasses
          (some (p.mask_threshold.lower, p.mask_threshold.upper))).map
        (fun adj => subRL base adj)
  | none => Except.ok base

/-- One iteration of the loop body, lines 113–130: update both caches
(lines 116–120), then compute `final_logits` from the *updated* caches
(lines 122–130).  Returns the caches and the final logits. -/
noncomputable def processSample (pp : Option PosParams) (np : Option NegParams)
    (numClasses : ℕ) (pos_cache neg_cache : Cache) (s : Sample) :
    Except Err (Cache × Cache × List ℝ) := do
  let pos' := posCacheAtScore pp pos_cache s
  let neg' := negCacheAtScore np neg_cache s
  let l1 ← posAdjust pp numClasses pos' s (qListToR s.clipLogits)
  let l2 ← negAdjust np numClasses neg' s l1
  Except.ok (pos', neg', l2)

/-- Index of the largest element of a real vector (first occurrence),
for the arg-max prediction. -/
noncomputable def argmaxIdx (l : List ℝ) : ℕ :=
  (List.range l.length).foldl (fun best j => if l.getD best 0 < l.getD j 0 then j else best) 0

/-- Modelled from the spec: `cls_acc` lives in `utils` (not in the
repository snapshot); per the spec the predicted class is the arg-max
of `final_logits` and accuracy is accumulated against the ground-truth
label, so one sample scores 1 when they agree and 0 otherwise. -/
noncomputable def cls_acc (logits : List ℝ) (target : ℕ) : ℝ :=
  if argmaxIdx logits = target then 1 else 0

/-- A Python division `x / n` with an integer denominator: raises
`ZeroDivisionError` (tagged with its source line) when `n = 0`. -/
noncomputable def safeDiv (x : ℝ) (n : ℕ) (line : ℕ) : Except Err ℝ :=
  if n = 0 then Except.error (Err.zeroDivision line) else Except.ok (x / n)

/-- One iteration of the `for` loop of lines 110–155: process the
sample, append its accuracy, and on every 1000th iteration run the
telemetry block (lines 144–155): both cache sizes, the average
inference time `total / (i+1)` and the running accuracy
`sum(accuracies)/len(accuracies)`.  Timing totals carry no semantic
content and enter only as the numerators of the checked divisions. -/
noncomputable def loopStep (pp : Option PosParams) (np : Option NegParams) (numClasses : ℕ)
    (st : Cache × Cache × List ℝ) (is : ℕ × Sample) : Except Err (Cache × Cache × List ℝ) := do
  let r ← processSample pp np numClasses st.1 st.2.1 is.2
  let accs := st.2.2 ++ [cls_acc r.2.2 is.2.target]
  if is.1 % 1000 == 0 then do
    let _posSize ← compute_real_cache_size r.1
    let _negSize ← compute_real_cache_size r.2.1
    let _avgInf ← safeDiv 0 (is.1 + 1) 148
    let _runAcc ← safeDiv accs.sum accs.length 155
    Except.ok (r.1, r.2.1, accs)
  else Except.ok (r.1, r.2.1, accs)

/-- `run_test_tda(pos_cfg, neg_cfg, loader, ...)` from lines 94–168:
unpack the hyperparameters, fold the loop body over the enumerated
stream starting from two empty caches, then the final block — the
average-inference-time division of line 159 (`num_lookups > 0` guards
line 158, so line 159 is the first division by `len(loader)`), the
final cache sizes (lines 162–163), the accuracy written to the log
(line 166) and the accuracy returned to the caller (line 168). -/
noncomputable def run_test_tda (pos_cfg : PosCfg) (neg_cfg : NegCfg) (numClasses : ℕ)
    (loader : List Sample) : Except Err ℝ := do
  let pn ← setupParams pos_cfg neg_cfg
  let st ← loader.enum.foldlM (loopStep pn.1 pn.2 numClasses) (emptyC, emptyC, ([] : List ℝ))
  let _avgInf ← safeDiv 0 loader.length 159
  let _posSize ← compute_real_cache_size st.1
  let _negSize ← compute_real_cache_size st.2.1
  let _logAcc ← safeDiv st.2.2.sum st.2.2.length 166
  safeDiv st.2.2.sum st.2.2.length 168

/-! ## Real-vector helpers for the kernel-weight analysis -/

/-- Dot product of two real vectors. -/
noncomputable def dotR (q k : List ℝ) : ℝ := (List.zipWith (· * ·) q k).sum

/-! ## Concrete fixtures for witnesses and counterexamples -/

/-- A two-slot cache entry with the given loss (feature `[l]`, both
runtime objects tensors, as the classifier produces). -/
def exEntry (l : ℚ) : CacheItem := ⟨[l], Value.tensor 2 4, l, Value.tensor 2 1, none, none⟩

/-- A full capacity-3 bucket built by three updates for class 0
(integer-valued losses keep every comparison kernel-decidable). -/
def exFullCache : Cache :=
  applyUpdates 3 false [(0, exEntry 5), (0, exEntry 2), (0, exEntry 9)]

/-- The bucket `exFullCache` stores for class 0. -/
def exFullBucket : List CacheItem := [exEntry 2, exEntry 5, exEntry 9]

/-- Concrete positive-cache hyperparameters: capacity 3, α = β = 1. -/
def exPosParams : PosParams := ⟨3, 1, 1⟩

/-- Concrete negative-cache hyperparameters: capacity 3, α = β = 1,
entropy window (1, 2) and mask window (1, 2). -/
def exNegParams : NegParams := ⟨3, 1, 1, ⟨1, 2⟩, ⟨1, 2⟩⟩

/-- A concrete classifier output: embedding `[1, 0]`, baseline logits
`[5, 0]`, loss 1, probability map `[1, 0]`, normalized entropy 5
(outside the (1, 2) window of `exNegParams`), predicted label 0. -/
def exSample : Sample :=
  ⟨[1, 0], Value.tensor 2 4, [5, 0], 1, Value.tensor 2 1, [1, 0], Value.tensor 2 2, 5, 0, 0⟩

/-- A one-entry negative cache holding `exSample`'s probability map. -/
def exNegCache : Cache := applyUpdates 3 true [(0, negItem exSample)]

/-- A config with capacity 0 and a collapsed (`lower = upper`) entropy
window and a reversed (`lower > upper`) mask window — everything the
spec says must be rejected. -/
def badPosCfg : PosCfg := ⟨true, some 0, some 1, some 1⟩

/-- See `badPosCfg`. -/
def badNegCfg : NegCfg := ⟨true, some 0, some 1, some 1, some ⟨1, 1⟩, some ⟨2, 1⟩⟩

/-- A well-formed positive config: capacity 3, α = β = 1. -/
def goodPosCfg : PosCfg := ⟨true, some 3, some 1, some 1⟩

/-- A well-formed negative config: capacity 3, α = β = 1, windows (1, 2). -/
def goodNegCfg : NegCfg := ⟨true, some 3, some 1, some 1, some ⟨1, 2⟩, some ⟨1, 2⟩⟩

/-- A disabled negative-cache config (the other keys are never read). -/
def offNegCfg : NegCfg := ⟨false, none, none, none, none, none⟩

/-- `exSample` with a plain (non-tensor) scalar in the loss slot: the
telemetry byte-size computation rejects it with `ValueError`. -/
def exScalarSample : Sample :=
  ⟨[1, 0], Value.tensor 2 4, [5, 0], 1, Value.scalar 1, [1, 0], Value.tensor 2 2, 5, 0, 0⟩

/-- The per-cache well-formedness invariant maintained by
`update_cache`: keys are unique, and every bucket satisfies `P` on its
key, respects the capacity, is sorted ascending by loss, and is
non-empty. -/
def CacheInv (cap : ℕ) (P : ℕ → Prop) (c : Cache) : Prop :=
  (c.map Prod.fst).Nodup ∧
  ∀ kb ∈ c, P kb.1 ∧ kb.2.length ≤ cap ∧ SortedLoss kb.2 ∧ kb.2 ≠ []

/-! ## Lemmas: the cache dictionary -/

theorem lookupC_setC_self (c : Cache) (k : ℕ) (v : List CacheItem) :
    lookupC (setC c k v) k = some v := by
  induction c with
  | nil => simp [setC, lookupC]
  | cons kb t ih =>
      by_cases h : kb.1 = k
      · simp [setC, h, lookupC]
      · simp [setC, h, lookupC, ih]

theorem lookupC_setC_of_ne (c : Cache) (k k' : ℕ) (v : List CacheItem) (h : k' ≠ k) :
    lookupC (setC c k v) k' = lookupC c k' := by
  have hne : ¬ k = k' := fun h' => h h'.symm
  induction c with
  | nil => simp [setC, lookupC, hne]
  | cons kb t ih =>
      by_cases hk : kb.1 = k
      · rw [setC, if_pos hk, lookupC, if_neg hne, lookupC, hk, if_neg hne]
      · rw [setC, if_neg hk, lookupC, lookupC]
        by_cases hk' : kb.1 = k'
        · rw [if_pos hk', if_pos hk']
        · rw [if_neg hk', if_neg hk', ih]

theorem setC_eq_self {c : Cache} {k : ℕ} {v : List CacheItem}
    (h : lookupC c k = some v) : setC c k v = c := by
  induction c with
  | nil => simp [lookupC] at h
  | cons kb t ih =>
      by_cases hk : kb.1 = k
      · rw [lookupC, if_pos hk] at h
        obtain rfl : kb.2 = v := by injection h
        rw [setC, if_pos hk]
        obtain ⟨k1, b1⟩ := kb
        simp only at hk
        rw [hk]
      · rw [lookupC, if_neg hk] at h
        rw [setC, if_neg hk, ih h]

theorem lookupC_mem {c : Cache} {k : ℕ} {b : List CacheItem}
    (h : lookupC c k = some b) : (k, b) ∈ c := by
  induction c with
  | nil => simp [lookupC] at h
  | cons kb t ih =>
      by_cases hk : kb.1 = k
      · rw [lookupC, if_pos hk] at h
        obtain rfl : kb.2 = b := by injection h
        obtain ⟨k1, b1⟩ := kb
        simp only at hk
        rw [hk]
        exact List.mem_cons_self _ _
      · rw [lookupC, if_neg hk] at h
        exact List.mem_cons_of_mem _ (ih h)

theorem lookupC_eq_none {c : Cache} {k : ℕ} (h : lookupC c k = none) :
    k ∉ c.map Prod.fst := by
  induction c with
  | nil => simp
  | cons kb t ih =>
      by_cases hk : kb.1 = k
      · rw [lookupC, if_pos hk] at h
        simp at h
      · rw [lookupC, if_neg hk] at h
        simp only [List.map_cons, List.mem_cons]
        push_neg
        exact ⟨fun h' => hk h'.symm, ih h⟩

theorem keys_setC (c : Cache) (k : ℕ) (v : List CacheItem) :
    (setC c k v).map Prod.fst
      = if k ∈ c.map Prod.fst then c.map Prod.fst else c.map Prod.fst ++ [k] := by
  induction c with
  | nil => simp [setC]
  | cons kb t ih =>
      by_cases hk : kb.1 = k
      · simp [setC, hk]
      · have hne : ¬ k = kb.1 := fun h' => hk h'.symm
        by_cases hmem : k ∈ t.map Prod.fst <;>
          simp [setC, hk, ih, hmem, hne]

theorem forall_mem_setC {Q : ℕ × List CacheItem → Prop} {c : Cache} {k : ℕ}
    {v : List CacheItem} (hc : ∀ kb ∈ c, Q kb) (hv : Q (k, v)) :
    ∀ kb ∈ setC c k v, Q kb := by
  induction c with
  | nil =>
      intro x hx
      simp only [setC, List.mem_singleton] at hx
      rw [hx]; exact hv
  | cons kb t ih =>
      intro x hx
      by_cases hk : kb.1 = k
      · rw [setC, if_pos hk] at hx
        rcases List.mem_cons.mp hx with rfl | hx
        · exact hv
        · exact hc _ (List.mem_cons_of_mem _ hx)
      · rw [setC, if_neg hk] at hx
        rcases List.mem_cons.mp hx with rfl | hx
        · exact hc _ (List.mem_cons_self _ _)
        · exact ih (fun y hy => hc y (List.mem_cons_of_mem _ hy)) x hx

/-! ## Lemmas: sorting by loss -/

theorem sortByLoss_sorted (l : List CacheItem) : SortedLoss (sortByLoss l) :=
  List.sorted_insertionSort lossLE l

theorem sortByLoss_eq_self {l : List CacheItem} (h : SortedLoss l) : sortByLoss l = l :=
  h.insertionSort_eq

theorem length_sortByLoss (l : List CacheItem) : (sortByLoss l).length = l.length :=
  List.length_insertionSort lossLE l

theorem mem_sortByLoss {l : List CacheItem} {x : CacheItem} :
    x ∈ sortByLoss l ↔ x ∈ l :=
  List.mem_insertionSort lossLE

/-! ## Lemmas: `update_cache` branch behaviour -/

theorem update_cache_of_none {cache : Cache} {pred : ℕ} (fl : CacheItem)
    (cap : ℕ) (flag : Bool) (h : lookupC cache pred = none) :
    update_cache cache pred fl cap flag = setC cache pred [storedItem flag fl] := by
  simp [update_cache, h]

theorem update_cache_of_some {cache : Cache} {pred : ℕ} {b : List CacheItem}
    (fl : CacheItem) (cap : ℕ) (flag : Bool) (h : lookupC cache pred = some b) :
    update_cache cache pred fl cap flag = setC cache pred (bucketAfter b fl cap flag) := by
  simp [update_cache, h]

/-- C1: `update_cache` creates a singleton bucket for an unseen label;
below capacity it appends the entry and re-sorts ascending by loss;
on a full bucket it replaces the maximum-loss (last) element exactly
when the entry's loss is strictly smaller, re-sorting afterwards, and
otherwise leaves the cache unchanged; and the capacity-3 insertion
sequence of losses [0.5, 0.2, 0.9, 0.1] for one class ends with bucket
losses [0.1, 0.2, 0.5]. -/
theorem C1_update_cache_branches (cache : Cache) (pred : ℕ) (entry : CacheItem) (cap : ℕ) :
    (lookupC cache pred = none →
      lookupC (update_cache cache pred entry cap true) pred = some [entry])
  ∧ (∀ b, lookupC cache pred = some b → b.length < cap →
      lookupC (update_cache cache pred entry cap true) pred
        = some (sortByLoss (b ++ [entry])))
  ∧ (∀ b, lookupC cache pred = some b → ¬ b.length < cap → SortedLoss b →
      (entry.loss < lossLast b →
        lookupC (update_cache cache pred entry cap true) pred
          = some (sortByLoss (b.dropLast ++ [entry])))
      ∧ (¬ entry.loss < lossLast b → update_cache cache pred entry cap true = cache))
  ∧ bucketLosses (applyUpdates 3 false
      [(0, exEntry (1/2)), (0, exEntry (1/5)), (0, exEntry (9/10)), (0, exEntry (1/10))]) 0
      = [1/10, 1/5, 1/2] := by
  refine ⟨?_, ?_, ?_, by
    norm_num [bucketLosses, applyUpdates, update_cache, lookupC, setC, bucketAfter,
      sortByLoss, List.insertionSort, List.orderedInsert, storedItem, lossLE, lossLast,
      exEntry, emptyC]⟩
  · intro h
    rw [update_cache_of_none entry cap true h, lookupC_setC_self]
    simp [storedItem]
  · intro b hb hlen
    rw [update_cache_of_some entry cap true hb, lookupC_setC_self, bucketAfter, if_pos hlen]
    simp [storedItem]
  · intro b hb hlen hsorted
    constructor
    · intro hloss
      rw [update_cache_of_some entry cap true hb, lookupC_setC_self, bucketAfter,
        if_neg hlen, if_pos hloss]
      simp [storedItem]
    · intro hloss
      rw [update_cache_of_some entry cap true hb, bucketAfter, if_neg hlen, if_neg hloss,
        sortByLoss_eq_self hsorted, setC_eq_self hb]

/-- Witness for C1, exercising the full-bucket rejection branch on a
concrete capacity-3 bucket and an entry of loss 10 ≥ the maximum 9. -/
theorem C1_update_cache_branches_witness :
    lookupC exFullCache 0 = some exFullBucket
    ∧ ¬ (exFullBucket.length < 3)
    ∧ SortedLoss exFullBucket
    ∧ ¬ ((exEntry 10).loss < lossLast exFullBucket)
    ∧ update_cache exFullCache 0 (exEntry 10) 3 true = exFullCache :=
  ⟨by decide, by decide, by decide, by decide,
   ((C1_update_cache_branches exFullCache 0 (exEntry 10) 3).2.2.1 exFullBucket (by decide)
      (by decide) (by decide)).2 (by decide)⟩

/-! ## Lemmas: the capacity/ordering invariant -/

theorem bucketAfter_length {b : List CacheItem} (fl : CacheItem) (cap : ℕ) (flag : Bool)
    (hcap : 1 ≤ cap) (hlen : b.length ≤ cap) :
    (bucketAfter b fl cap flag).length ≤ cap := by
  rw [bucketAfter]
  split
  · rw [length_sortByLoss, List.length_append, List.length_singleton]
    omega
  · split
    · rw [length_sortByLoss, List.length_append, List.length_singleton, List.length_dropLast]
      omega
    · rw [length_sortByLoss]; exact hlen

theorem bucketAfter_ne_nil {b : List CacheItem} (fl : CacheItem) (cap : ℕ) (flag : Bool)
    (hcap : 1 ≤ cap) : bucketAfter b fl cap flag ≠ [] := by
  apply List.ne_nil_of_length_pos
  rw [bucketAfter]
  split
  · rw [length_sortByLoss, List.length_append, List.length_singleton]; omega
  · split
    · rw [length_sortByLoss, List.length_append, List.length_singleton]; omega
    · rw [length_sortByLoss]; omega

theorem cacheInv_empty (cap : ℕ) (P : ℕ → Prop) : CacheInv cap P emptyC :=
  ⟨List.nodup_nil, by intro kb h; simp [emptyC] at h⟩

theorem cacheInv_update {cap : ℕ} {P : ℕ → Prop} {c : Cache} (hinv : CacheInv cap P c)
    (hcap : 1 ≤ cap) {pred : ℕ} (hP : P pred) (fl : CacheItem) (flag : Bool) :
    CacheInv cap P (update_cache c pred fl cap flag) := by
  obtain ⟨hnodup, hall⟩ := hinv
  cases hl : lookupC c pred with
  | none =>
      rw [update_cache_of_none fl cap flag hl]
      constructor
      · rw [keys_setC, if_neg (lookupC_eq_none hl)]
        simp only [List.nodup_append, List.nodup_singleton, true_and]
        exact ⟨hnodup, by simpa using lookupC_eq_none hl⟩
      · refine forall_mem_setC hall ⟨hP, by simpa using hcap, ?_, by simp⟩
        exact List.sorted_singleton _
  | some b =>
      rw [update_cache_of_some fl cap flag hl]
      have hb := hall _ (lookupC_mem hl)
      constructor
      · rw [keys_setC, if_pos (List.mem_map_of_mem Prod.fst (lookupC_mem hl))]
        exact hnodup
      · exact forall_mem_setC hall
          ⟨hP, bucketAfter_length fl cap flag hcap hb.2.1,
           sortByLoss_sorted _, bucketAfter_ne_nil fl cap flag hcap⟩

theorem cacheInv_foldl {cap : ℕ} {P : ℕ → Prop} (hcap : 1 ≤ cap) (flag : Bool) :
    ∀ (upds : List (ℕ × CacheItem)), (∀ pu ∈ upds, P pu.1) →
    ∀ {c : Cache}, CacheInv cap P c →
    CacheInv cap P (upds.foldl (fun c pu => update_cache c pu.1 pu.2 cap flag) c) := by
  intro upds
  induction upds with
  | nil => intro _ c hc; exact hc
  | cons pu t ih =>
      intro hP c hc
      exact ih (fun x hx => hP x (List.mem_cons_of_mem _ hx))
        (cacheInv_update hc hcap (hP pu (List.mem_cons_self _ _)) pu.2 flag)

theorem cacheInv_applyUpdates {cap : ℕ} {P : ℕ → Prop} (hcap : 1 ≤ cap) (flag : Bool)
    (upds : List (ℕ × CacheItem)) (hP : ∀ pu ∈ upds, P pu.1) :
    CacheInv cap P (applyUpdates cap flag upds) :=
  cacheInv_foldl hcap flag upds hP (cacheInv_empty cap P)

theorem totalEntries_le_of_inv {cap C : ℕ} {c : Cache}
    (hinv : CacheInv cap (fun k => k < C) c) : totalEntries c ≤ C * cap := by
  obtain ⟨hnodup, hall⟩ := hinv
  have hlenC : c.length ≤ C := by
    have h1 : (c.map Prod.fst).toFinset.card = (c.map Prod.fst).length :=
      List.toFinset_card_of_nodup hnodup
    have h2 : (c.map Prod.fst).toFinset ⊆ Finset.range C := by
      intro x hx
      simp only [List.mem_toFinset] at hx
      obtain ⟨kb, hkb, rfl⟩ := List.mem_map.mp hx
      exact Finset.mem_range.mpr (hall kb hkb).1
    calc c.length = (c.map Prod.fst).length := (List.length_map _ _).symm
      _ = (c.map Prod.fst).toFinset.card := h1.symm
      _ ≤ (Finset.range C).card := Finset.card_le_card h2
      _ = C := Finset.card_range C
  have hsum : (c.map (fun kb => kb.2.length)).sum ≤ (c.map (fun kb => kb.2.length)).length * cap := by
    have := List.sum_le_card_nsmul (c.map (fun kb => kb.2.length)) cap
      (by intro x hx
          obtain ⟨kb, hkb, rfl⟩ := List.mem_map.mp hx
          exact (hall kb hkb).2.1)
    simpa [smul_eq_mul] using this
  calc totalEntries c ≤ (c.map (fun kb => kb.2.length)).length * cap := hsum
    _ = c.length * cap := by rw [List.length_map]
    _ ≤ C * cap := Nat.mul_le_mul_right cap hlenC

/-- C2 (amended): for every capacity `k ≥ 1`, after any sequence of
updates every bucket holds at most `k` entries and is sorted ascending
by loss; with all labels below `C`, the total entries of one cache are
at most `C*k`, and across a positive and a negative cache with
capacities `k_p, k_n ≥ 1` the grand total is at most `C*(k_p+k_n)`. -/
theorem C2_capacity_ordering_memory (cap : ℕ) (hcap : 1 ≤ cap) (flag : Bool)
    (upds : List (ℕ × CacheItem)) :
    (∀ k b, lookupC (applyUpdates cap flag upds) k = some b →
      b.length ≤ cap ∧ SortedLoss b)
  ∧ (∀ C : ℕ, (∀ pu ∈ upds, pu.1 < C) →
      totalEntries (applyUpdates cap flag upds) ≤ C * cap)
  ∧ (∀ (C kp kn : ℕ), 1 ≤ kp → 1 ≤ kn →
      ∀ (pupds nupds : List (ℕ × CacheItem)),
        (∀ pu ∈ pupds, pu.1 < C) → (∀ pu ∈ nupds, pu.1 < C) →
        totalEntries (applyUpdates kp false pupds) + totalEntries (applyUpdates kn true nupds)
          ≤ C * (kp + kn)) := by
  refine ⟨?_, ?_, ?_⟩
  · intro k b hb
    have hinv := cacheInv_applyUpdates (P := fun _ => True) hcap flag upds (by intro pu _; trivial)
    have := hinv.2 _ (lookupC_mem hb)
    exact ⟨this.2.1, this.2.2.1⟩
  · intro C hC
    exact totalEntries_le_of_inv (cacheInv_applyUpdates hcap flag upds hC)
  · intro C kp kn hkp hkn pupds nupds hp hn
    have h1 := totalEntries_le_of_inv (cacheInv_applyUpdates hkp false pupds hp)
    have h2 := totalEntries_le_of_inv (cacheInv_applyUpdates hkn true nupds hn)
    calc totalEntries (applyUpdates kp false pupds) + totalEntries (applyUpdates kn true nupds)
        ≤ C * kp + C * kn := Nat.add_le_add h1 h2
      _ = C * (kp + kn) := (Nat.mul_add C kp kn).symm

/-- Witness for C2 at capacity 1 and a single update for class 0. -/
theorem C2_capacity_ordering_memory_witness :
    (1 ≤ 1
    ∧ ∀ k b, lookupC (applyUpdates 1 false [(0, exEntry 1)]) k = some b →
        b.length ≤ 1 ∧ SortedLoss b) :=
  ⟨by decide, (C2_capacity_ordering_memory 1 (by decide) false [(0, exEntry 1)]).1⟩

/-- C2 counterexample: capacity 0 is a non-negative capacity, yet a
single `update_cache` call creates a bucket holding one entry, so the
`len(bucket) <= k` bound fails at `k = 0`. -/
theorem C2_counterexample_capacity_zero :
    lookupC (applyUpdates 0 false [(0, exEntry 1)]) 0 = some [exEntry 1]
    ∧ ¬ (([exEntry 1] : List CacheItem).length ≤ 0) :=
  ⟨by decide, by decide⟩

/-! ## Lemmas: what the scorer sees of the current sample -/

theorem featInCache_of_mem {c : Cache} {k : ℕ} {b : List CacheItem} {it : CacheItem}
    (hb : lookupC c k = some b) (hit : it ∈ b) {f : List ℚ} (hf : it.feat = f) :
    featInCache f c = true := by
  rw [featInCache, List.any_eq_true]
  refine ⟨(k, b), lookupC_mem hb, ?_⟩
  rw [List.any_eq_true]
  exact ⟨it, hit, by simp [hf]⟩

/-- C3 (amended): the cache the scorer reads at line 127 is the cache
*after* the current sample's `update_cache` call of line 117 — a write
is visible to the scoring of the very sample that made it.  Whenever
the sample opens a new bucket or lands in one below capacity, its own
embedding is therefore already stored in the cache being queried. -/
theorem C3_update_visible_to_same_sample (p : PosParams) (pc : Cache) (s : Sample) :
    posCacheAtScore (some p) pc s
      = update_cache pc s.pred (posItem s) p.shot_capacity false
  ∧ (lookupC pc s.pred = none →
      featInCache s.imageFeatures (posCacheAtScore (some p) pc s) = true)
  ∧ (∀ b, lookupC pc s.pred = some b → b.length < p.shot_capacity →
      featInCache s.imageFeatures (posCacheAtScore (some p) pc s) = true) := by
  refine ⟨rfl, ?_, ?_⟩
  · intro h
    rw [posCacheAtScore, update_cache_of_none (posItem s) p.shot_capacity false h]
    exact featInCache_of_mem (lookupC_setC_self pc s.pred _) (List.mem_singleton_self _) rfl
  · intro b hb hlen
    rw [posCacheAtScore, update_cache_of_some (posItem s) p.shot_capacity false hb]
    refine featInCache_of_mem (lookupC_setC_self pc s.pred _) ?_ (rfl : (storedItem false (posItem s)).feat = _)
    rw [bucketAfter, if_pos hlen, mem_sortByLoss]
    exact List.mem_append_right b (List.mem_singleton_self _)

/-- Witness for C3 on the concrete sample `exSample` and an empty
positive cache. -/
theorem C3_update_visible_to_same_sample_witness :
    lookupC emptyC exSample.pred = none
    ∧ featInCache exSample.imageFeatures (posCacheAtScore (some exPosParams) emptyC exSample) = true :=
  ⟨by decide, (C3_update_visible_to_same_sample exPosParams emptyC exSample).2.1 (by decide)⟩

/-- C3 counterexample: the claim says the sample's own embedding is
*not yet* stored in the cache the scorer queries; on the concrete
sample `exSample` (positive cache enabled, initially empty) the
queried cache does contain it. -/
theorem C3_counterexample_self_visible :
    featInCache exSample.imageFeatures (posCacheAtScore (some exPosParams) emptyC exSample) = true := by
  decide

theorem except_bind_ok {α β : Type} (a : α) (f : α → Except Err β) :
    (Except.ok a >>= f) = f a := rfl

theorem except_bind_error {α β : Type} (e : Err) (f : α → Except Err β) :
    ((Except.error e : Except Err α) >>= f) = Except.error e := rfl

/-- C5: a sample whose normalized entropy falls outside the open window
`(entropy_threshold.lower, entropy_threshold.upper)` never mutates the
negative cache — the gate of line 119 is checked before `update_cache`
is ever called, so both the cache handed to the scorer and the cache
`processSample` returns are the untouched input cache, regardless of the
sample's loss. -/
theorem C5_entropy_gate (np : NegParams) (nc : Cache) (s : Sample)
    (h : ¬ (np.entropy_threshold.lower < s.propEntropy
            ∧ s.propEntropy < np.entropy_threshold.upper)) :
    negCacheAtScore (some np) nc s = nc
  ∧ (∀ (pp : Option PosParams) (numClasses : ℕ) (pc : Cache) (r : Cache × Cache × List ℝ),
      processSample pp (some np) numClasses pc nc s = Except.ok r → r.2.1 = nc) := by
  have hgate : negCacheAtScore (some np) nc s = nc := by
    rw [negCacheAtScore, if_neg h]
  refine ⟨hgate, ?_⟩
  intro pp numClasses pc r hr
  rw [processSample] at hr
  cases hpos : posAdjust pp numClasses (posCacheAtScore pp pc s) s (qListToR s.clipLogits) with
  | error e => rw [hpos, except_bind_error] at hr; exact absurd hr (by simp)
  | ok l1 =>
      rw [hpos, except_bind_ok] at hr
      cases hneg : negAdjust (some np) numClasses (negCacheAtScore (some np) nc s) s l1 with
      | error e => rw [hneg, except_bind_error] at hr; exact absurd hr (by simp)
      | ok l2 =>
          rw [hneg, except_bind_ok] at hr
          injection hr with hr
          rw [← hr]
          exact hgate

/-- Witness for C5: `exSample` has normalized entropy 5, outside the
(1, 2) window of `exNegParams`, and the negative cache stays empty. -/
theorem C5_entropy_gate_witness :
    ¬ (exNegParams.entropy_threshold.lower < exSample.propEntropy
       ∧ exSample.propEntropy < exNegParams.entropy_threshold.upper)
    ∧ negCacheAtScore (some exNegParams) emptyC exSample = emptyC :=
  ⟨by decide, (C5_entropy_gate exNegParams emptyC exSample (by decide)).1⟩

/-! ## Lemmas: the affinity kernel -/

theorem dotR_eq_sum (q k : List ℝ) :
    dotR q k = ∑ i ∈ Finset.range (min q.length k.length), q.getD i 0 * k.getD i 0 := by
  induction q generalizing k with
  | nil => simp [dotR]
  | cons a q ih =>
      cases k with
      | nil => simp [dotR]
      | cons b k =>
          have hmin : min (a :: q).length (b :: k).length = min q.length k.length + 1 := by
            simp [Nat.succ_min_succ]
          rw [hmin, Finset.sum_range_succ']
          simp only [List.getD_cons_succ, List.getD_cons_zero]
          rw [← ih]
          simp only [dotR, List.zipWith_cons_cons, List.sum_cons]
          ring

theorem dotR_sq_le (q k : List ℝ) : dotR q k ^ 2 ≤ dotR q q * dotR k k := by
  rw [dotR_eq_sum q k, dotR_eq_sum q q, dotR_eq_sum k k, min_self, min_self]
  have cs := Finset.sum_mul_sq_le_sq_mul_sq (Finset.range (min q.length k.length))
    (fun i => q.getD i 0) (fun i => k.getD i 0)
  have h1 : (∑ i ∈ Finset.range (min q.length k.length), q.getD i 0 ^ 2)
      ≤ ∑ i ∈ Finset.range q.length, q.getD i 0 * q.getD i 0 := by
    have hsq : (∑ i ∈ Finset.range (min q.length k.length), q.getD i 0 ^ 2)
        = ∑ i ∈ Finset.range (min q.length k.length), q.getD i 0 * q.getD i 0 :=
      Finset.sum_congr rfl (fun i _ => sq (q.getD i 0))
    rw [hsq]
    exact Finset.sum_le_sum_of_subset_of_nonneg
      (Finset.range_subset.mpr (min_le_left _ _))
      (fun i _ _ => mul_self_nonneg _)
  have h2 : (∑ i ∈ Finset.range (min q.length k.length), k.getD i 0 ^ 2)
      ≤ ∑ i ∈ Finset.range k.length, k.getD i 0 * k.getD i 0 := by
    have hsq : (∑ i ∈ Finset.range (min q.length k.length), k.getD i 0 ^ 2)
        = ∑ i ∈ Finset.range (min q.length k.length), k.getD i 0 * k.getD i 0 :=
      Finset.sum_congr rfl (fun i _ => sq (k.getD i 0))
    rw [hsq]
    exact Finset.sum_le_sum_of_subset_of_nonneg
      (Finset.range_subset.mpr (min_le_right _ _))
      (fun i _ _ => mul_self_nonneg _)
  have hnn : (0:ℝ) ≤ ∑ i ∈ Finset.range (min q.length k.length), k.getD i 0 ^ 2 :=
    Finset.sum_nonneg (fun i _ => sq_nonneg _)
  have hnn2 : (0:ℝ) ≤ ∑ i ∈ Finset.range q.length, q.getD i 0 * q.getD i 0 :=
    Finset.sum_nonneg (fun i _ => mul_self_nonneg _)
  calc (∑ i ∈ Finset.range (min q.length k.length), q.getD i 0 * k.getD i 0) ^ 2
      ≤ (∑ i ∈ Finset.range (min q.length k.length), q.getD i 0 ^ 2)
        * (∑ i ∈ Finset.range (min q.length k.length), k.getD i 0 ^ 2) := cs
    _ ≤ (∑ i ∈ Finset.range q.length, q.getD i 0 * q.getD i 0)
        * (∑ i ∈ Finset.range k.length, k.getD i 0 * k.getD i 0) :=
        mul_le_mul h1 h2 hnn hnn2

theorem dotR_le_one {q k : List ℝ} (hq : dotR q q = 1) (hk : dotR k k = 1) :
    dotR q k ≤ 1 := by
  have h := dotR_sq_le q k
  rw [hq, hk] at h
  nlinarith [sq_nonneg (dotR q k - 1)]

/-- C4: the per-entry kernel weight computed at line 60 equals
`exp(-beta * (1 - affinity))`; for `beta > 0` it is strictly increasing
in the affinity; a query identical to a stored key (affinity
`dot q q = 1` for an L2-normalized embedding) receives weight
`exp 0 = 1`; and 1 is the maximal per-entry weight for normalized
vectors, whose pairwise affinities cannot exceed 1. -/
theorem C4_kernel_weight_properties (beta : ℝ) (hbeta : 0 < beta) :
    (∀ a : ℝ, kernelWeight beta a = Real.exp (-(beta * (1 - a))))
  ∧ (∀ a1 a2 : ℝ, a1 < a2 → kernelWeight beta a1 < kernelWeight beta a2)
  ∧ kernelWeight beta 1 = 1
  ∧ (∀ q : List ℝ, dotR q q = 1 → kernelWeight beta (dotR q q) = 1)
  ∧ (∀ q k : List ℝ, dotR q q = 1 → dotR k k = 1 →
      kernelWeight beta (dotR q k) ≤ 1) := by
  refine ⟨?_, ?_, ?_, ?_, ?_⟩
  · intro a
    rw [kernelWeight]
    ring_nf
  · intro a1 a2 hlt
    rw [kernelWeight, kernelWeight]
    apply Real.exp_lt_exp.mpr
    nlinarith
  · rw [kernelWeight]
    norm_num
  · intro q hq
    rw [hq, kernelWeight]
    norm_num
  · intro q k hq hk
    rw [kernelWeight]
    rw [Real.exp_le_one_iff]
    have hd := dotR_le_one hq hk
    nlinarith

/-- Witness for C4 at `beta = 1`, including the self-similarity value
and the maximality bound at the concrete normalized embeddings
`[1, 0]` and `[0, 1]`. -/
theorem C4_kernel_weight_properties_witness :
    (0:ℝ) < 1
    ∧ kernelWeight 1 1 = 1
    ∧ dotR [(1:ℝ), 0] [(1:ℝ), 0] = 1
    ∧ dotR [(0:ℝ), 1] [(0:ℝ), 1] = 1
    ∧ kernelWeight 1 (dotR [(1:ℝ), 0] [(0:ℝ), 1]) ≤ 1 :=
  ⟨by norm_num, (C4_kernel_weight_properties 1 (by norm_num)).2.2.1,
   by norm_num [dotR], by norm_num [dotR],
   (C4_kernel_weight_properties 1 (by norm_num)).2.2.2.2 [(1:ℝ), 0] [(0:ℝ), 1]
     (by norm_num [dotR]) (by norm_num [dotR])⟩

/-! ## Lemmas: the scorer's value rows and the empty-cache error -/

theorem except_map_error {α β : Type} (f : α → β) (e : Err) :
    (Except.error e : Except Err α).map f = Except.error e := rfl

theorem except_map_ok {α β : Type} (f : α → β) (a : α) :
    (Except.ok a : Except Err α).map f = Except.ok (f a) := rfl

theorem mapM_ok {α β : Type} (f : α → Except Err β) (g : α → β) :
    ∀ l : List α, (∀ x ∈ l, f x = Except.ok (g x)) → l.mapM f = Except.ok (l.map g) := by
  intro l
  induction l with
  | nil => intro _; rfl
  | cons a t ih =>
      intro h
      rw [List.mapM_cons, h a (List.mem_cons_self _ _), except_bind_ok,
        ih (fun x hx => h x (List.mem_cons_of_mem _ hx)), except_bind_ok]
      rfl

theorem maskRow_eq_negMaskVec (lo hi : ℚ) (pm : List ℚ) :
    pm.map (fun p => if decide (lo < p) && decide (p < hi) then (1:ℚ) else 0)
      = negMaskVec lo hi pm := by
  rw [negMaskVec]
  refine List.map_congr_left ?_
  intro p _
  by_cases h1 : lo < p <;> by_cases h2 : p < hi <;> simp [h1, h2]

/-- C8: in negative mode the scorer's value row for each stored entry
is exactly the binary window mask of its stored probability map —
`1` where `mask_threshold.lower < p < mask_threshold.upper` (both
strict), `0` elsewhere — and the returned logits are the
kernel-weighted sum over those mask rows. -/
theorem C8_negative_mask_rows (q : List ℚ) (cache : Cache) (alpha beta : ℚ)
    (numClasses : ℕ) (lo hi : ℚ)
    (hne : flattenCache cache ≠ [])
    (hpm : ∀ e ∈ flattenCache cache, e.2.probMap.isSome = true) :
    compute_cache_logits q cache alpha beta numClasses (some (lo, hi))
      = Except.ok ((List.range numClasses).map (fun cls =>
          ((alpha : ℚ) : ℝ) * sumWeighted (weightsOf q cache beta)
            ((flattenCache cache).map (fun e => negMaskVec lo hi (e.2.probMap.getD []))) cls)) := by
  have hmapM : (flattenCache cache).mapM
        (fun ki => valueRow numClasses (some (lo, hi)) ki.1 ki.2)
      = Except.ok ((flattenCache cache).map
          (fun e => negMaskVec lo hi (e.2.probMap.getD []))) := by
    apply mapM_ok
    intro e he
    obtain ⟨pm, hpm'⟩ := Option.isSome_iff_exists.mp (hpm e he)
    rw [valueRow, hpm']
    rw [show ((some pm).getD [] : List ℚ) = pm from rfl, ← maskRow_eq_negMaskVec]
  rw [compute_cache_logits, hmapM, except_bind_ok, if_neg]
  simp only [List.isEmpty_iff]
  exact hne

/-- Witness for C8 on the one-entry negative cache `exNegCache`. -/
theorem C8_negative_mask_rows_witness :
    flattenCache exNegCache ≠ []
    ∧ (∀ e ∈ flattenCache exNegCache, e.2.probMap.isSome = true)
    ∧ compute_cache_logits [1, 0] exNegCache 1 1 2 (some (1, 2))
        = Except.ok ((List.range 2).map (fun cls =>
            ((1 : ℚ) : ℝ) * sumWeighted (weightsOf [1, 0] exNegCache 1)
              ((flattenCache exNegCache).map
                (fun e => negMaskVec 1 2 (e.2.probMap.getD []))) cls)) :=
  ⟨by decide, by decide,
   C8_negative_mask_rows [1, 0] exNegCache 1 1 2 1 2 (by decide) (by decide)⟩

theorem posAdjust_skip {pp : Option PosParams} {numClasses : ℕ} {c : Cache} {s : Sample}
    {base : List ℝ} (h : isEmptyC c = true ∨ pp = none) :
    posAdjust pp numClasses c s base = Except.ok base := by
  cases pp with
  | none => rfl
  | some p =>
      rcases h with h | h
      · rw [posAdjust, if_pos h]
      · exact absurd h (by simp)

theorem negAdjust_skip {np : Option NegParams} {numClasses : ℕ} {c : Cache} {s : Sample}
    {base : List ℝ} (h : isEmptyC c = true ∨ np = none) :
    negAdjust np numClasses c s base = Except.ok base := by
  cases np with
  | none => rfl
  | some p =>
      rcases h with h | h
      · rw [negAdjust, if_pos h]
      · exact absurd h (by simp)

/-- C9: the scorer applied to an empty cache store hits the
`torch.cat`-of-nothing error branch; the orchestrator's
`if enabled and cache:` guards make that branch unreachable — when the
positive store is empty (or its side disabled) the per-sample result is
the baseline logits adjusted only by the negative side, and when both
sides are empty or disabled the result is exactly the baseline. -/
theorem C9_empty_cache_skip (pp : Option PosParams) (np : Option NegParams)
    (numClasses : ℕ) (pc nc : Cache) (s : Sample) :
    (∀ (q : List ℚ) (a b : ℚ) (n : ℕ) (m : Option (ℚ × ℚ)),
        compute_cache_logits q emptyC a b n m = Except.error Err.runtimeError)
  ∧ (isEmptyC (posCacheAtScore pp pc s) = true ∨ pp = none →
      processSample pp np numClasses pc nc s
        = (negAdjust np numClasses (negCacheAtScore np nc s) s (qListToR s.clipLogits)).map
            (fun l2 => (posCacheAtScore pp pc s, negCacheAtScore np nc s, l2)))
  ∧ ((isEmptyC (posCacheAtScore pp pc s) = true ∨ pp = none) →
     (isEmptyC (negCacheAtScore np nc s) = true ∨ np = none) →
      processSample pp np numClasses pc nc s
        = Except.ok (posCacheAtScore pp pc s, negCacheAtScore np nc s, qListToR s.clipLogits)) := by
  refine ⟨?_, ?_, ?_⟩
  · intro q a b n m
    rfl
  · intro hpos
    rw [processSample, posAdjust_skip hpos, except_bind_ok]
    cases hneg : negAdjust np numClasses (negCacheAtScore np nc s) s (qListToR s.clipLogits) with
    | error e => rfl
    | ok l2 => rfl
  · intro hpos hneg
    rw [processSample, posAdjust_skip hpos, except_bind_ok, negAdjust_skip hneg, except_bind_ok]

/-- Witness for C9: positive side disabled, negative side enabled but
gated off for `exSample`, so the result is exactly the baseline. -/
theorem C9_empty_cache_skip_witness :
    (isEmptyC (posCacheAtScore none emptyC exSample) = true ∨ (none : Option PosParams) = none)
    ∧ (isEmptyC (negCacheAtScore (some exNegParams) emptyC exSample) = true
       ∨ (some exNegParams : Option NegParams) = none)
    ∧ processSample none (some exNegParams) 2 emptyC emptyC exSample
        = Except.ok (posCacheAtScore none emptyC exSample,
            negCacheAtScore (some exNegParams) emptyC exSample, qListToR exSample.clipLogits) :=
  ⟨Or.inl (by decide), Or.inl (by decide),
   (C9_empty_cache_skip none (some exNegParams) 2 emptyC emptyC exSample).2.2
     (Or.inl (by decide)) (Or.inl (by decide))⟩

/-! ## Configuration handling and the empty stream -/

/-- C6 (amended): the only configuration check the code performs is the
dict lookup of each hyperparameter key — a missing key aborts the run
with `KeyError` before any sample is processed (whatever the stream
contains), while a capacity of 0 or ≤ 0 and malformed threshold windows
pass the configuration phase untouched. -/
theorem C6_config_validation (pos : PosCfg) (neg : NegCfg) (numClasses : ℕ)
    (loader : List Sample) (hpos : pos.enabled = true) (hmiss : pos.shot_capacity = none) :
    run_test_tda pos neg numClasses loader = Except.error (Err.keyError "shot_capacity")
  ∧ (∀ (sc : ℕ) (a b : ℚ) (sc2 : ℕ) (a2 b2 : ℚ) (et mt : ThresholdW),
      setupParams ⟨true, some sc, some a, some b⟩
          ⟨true, some sc2, some a2, some b2, some et, some mt⟩
        = Except.ok (some ⟨sc, a, b⟩, some ⟨sc2, a2, b2, et, mt⟩)) := by
  constructor
  · have hsetup : setupParams pos neg = Except.error (Err.keyError "shot_capacity") := by
      rw [setupParams, hpos, unpackPos, hmiss]
      rfl
    rw [run_test_tda, hsetup]
    rfl
  · intro sc a b sc2 a2 b2 et mt
    rfl

/-- Witness for C6: a positive config whose `shot_capacity` key is
missing aborts on a concrete one-sample stream. -/
theorem C6_config_validation_witness :
    (⟨true, none, some 1, some 1⟩ : PosCfg).enabled = true
    ∧ (⟨true, none, some 1, some 1⟩ : PosCfg).shot_capacity = none
    ∧ run_test_tda ⟨true, none, some 1, some 1⟩ goodNegCfg 2 [exSample]
        = Except.error (Err.keyError "shot_capacity") :=
  ⟨rfl, rfl, (C6_config_validation ⟨true, none, some 1, some 1⟩ goodNegCfg 2 [exSample] rfl rfl).1⟩

/-- C6 counterexample: a configuration with `shot_capacity = 0`, a
collapsed entropy window (lower = upper) and a reversed mask window
(lower > upper) raises nothing at configuration time — the unpacking
succeeds, a capacity-0 update still stores an entry, and the run
proceeds into its body instead of failing with any config error. -/
theorem C6_counterexample_no_validation :
    setupParams badPosCfg badNegCfg
      = Except.ok (some ⟨0, 1, 1⟩, some ⟨0, 1, 1, ⟨1, 1⟩, ⟨2, 1⟩⟩)
    ∧ lookupC (posCacheAtScore (some ⟨0, 1, 1⟩) emptyC exSample) exSample.pred
        = some [posItem exSample]
    ∧ run_test_tda badPosCfg badNegCfg 2 [] = Except.error (Err.zeroDivision 159) :=
  ⟨rfl, by decide, rfl⟩

/-- C10 (amended): with an empty input stream the run raises
`ZeroDivisionError` and returns no accuracy — but from the
average-inference-time division `total_inference_time / len(loader)`
at line 159, which is evaluated before either accuracy division
`sum(accuracies)/len(accuracies)` (lines 166 and 168) is reached. -/
theorem C10_empty_stream_divzero (pos : PosCfg) (neg : NegCfg) (numClasses : ℕ)
    (pn : Option PosParams × Option NegParams)
    (hsetup : setupParams pos neg = Except.ok pn) :
    run_test_tda pos neg numClasses [] = Except.error (Err.zeroDivision 159) := by
  rw [run_test_tda, hsetup, except_bind_ok]
  rfl

/-- Witness for C10 on the well-formed configs. -/
theorem C10_empty_stream_divzero_witness :
    setupParams goodPosCfg goodNegCfg
      = Except.ok (some ⟨3, 1, 1⟩, some ⟨3, 1, 1, ⟨1, 2⟩, ⟨1, 2⟩⟩)
    ∧ run_test_tda goodPosCfg goodNegCfg 2 [] = Except.error (Err.zeroDivision 159) :=
  ⟨rfl, C10_empty_stream_divzero goodPosCfg goodNegCfg 2 _ rfl⟩

/-- C10 counterexample: the empty-stream `ZeroDivisionError` is not
raised by the accuracy computation of lines 166/168 as the claim
states — line 159 raises first. -/
theorem C10_counterexample_error_site :
    run_test_tda goodPosCfg goodNegCfg 2 [] = Except.error (Err.zeroDivision 159)
    ∧ run_test_tda goodPosCfg goodNegCfg 2 [] ≠ Except.error (Err.zeroDivision 166)
    ∧ run_test_tda goodPosCfg goodNegCfg 2 [] ≠ Except.error (Err.zeroDivision 168) := by
  have h : run_test_tda goodPosCfg goodNegCfg 2 [] = Except.error (Err.zeroDivision 159) := rfl
  refine ⟨h, ?_, ?_⟩ <;> rw [h] <;> simp

/-! ## Telemetry failure propagation -/

theorem compute_cache_logits_pos_mode (q : List ℚ) (c : Cache) (a b : ℚ) (nCl : ℕ)
    (hfl : flattenCache c ≠ []) :
    compute_cache_logits q c a b nCl none
      = Except.ok ((List.range nCl).map (fun cls =>
          ((a : ℚ) : ℝ) * sumWeighted (weightsOf q c b)
            ((flattenCache c).map (fun ki => oneHot nCl ki.1)) cls)) := by
  have hmapM : (flattenCache c).mapM (fun ki => valueRow nCl none ki.1 ki.2)
      = Except.ok ((flattenCache c).map (fun ki => oneHot nCl ki.1)) := by
    apply mapM_ok
    intro ki _
    rfl
  rw [compute_cache_logits, hmapM, except_bind_ok, if_neg]
  simp only [List.isEmpty_iff]
  exact hfl

theorem processSample_pos_only (p : PosParams) (nCl : ℕ) (pc nc : Cache) (s : Sample)
    (hne : isEmptyC (posCacheAtScore (some p) pc s) = false)
    (hfl : flattenCache (posCacheAtScore (some p) pc s) ≠ []) :
    processSample (some p) none nCl pc nc s
      = Except.ok (posCacheAtScore (some p) pc s, nc,
          addRL (qListToR s.clipLogits)
            ((List.range nCl).map (fun cls =>
              ((p.alpha : ℚ) : ℝ)
                * sumWeighted (weightsOf s.imageFeatures (posCacheAtScore (some p) pc s) p.beta)
                  ((flattenCache (posCacheAtScore (some p) pc s)).map
                    (fun ki => oneHot nCl ki.1)) cls))) := by
  rw [processSample, posAdjust, if_neg (by rw [hne]; exact Bool.false_ne_true),
    compute_cache_logits_pos_mode _ _ _ _ _ hfl, except_map_ok, except_bind_ok]
  rfl

/-- C7 (amended): a telemetry size-computation failure is *not*
isolated — `run_test_tda` has no handler around
`compute_real_cache_size`, so the `ValueError` raised on a non-tensor
value propagates out of the loop and aborts the whole run on the first
telemetry iteration.  When the size computations succeed, the telemetry
block has no effect on cache state, predictions or the accumulated
accuracies. -/
theorem C7_telemetry_failure_aborts
    (cap : ℕ) (a b : ℚ) (neg : NegCfg) (hneg : neg.enabled = false)
    (numClasses : ℕ) (s : Sample) (rest : List Sample)
    (es n : ℕ) (x : ℚ) (hft : s.featT = Value.tensor es n) (hlt : s.lossT = Value.scalar x) :
    run_test_tda ⟨true, some cap, some a, some b⟩ neg numClasses (s :: rest)
      = Except.error Err.valueError
  ∧ (∀ (pp : Option PosParams) (np : Option NegParams) (nCl i : ℕ)
       (st : Cache × Cache × List ℝ) (sam : Sample) (r : Cache × Cache × List ℝ) (m1 m2 : ℕ),
      processSample pp np nCl st.1 st.2.1 sam = Except.ok r →
      compute_real_cache_size r.1 = Except.ok m1 →
      compute_real_cache_size r.2.1 = Except.ok m2 →
      loopStep pp np nCl st (i, sam)
        = Except.ok (r.1, r.2.1, st.2.2 ++ [cls_acc r.2.2 sam.target])) := by
  constructor
  · have h1 : setupParams ⟨true, some cap, some a, some b⟩ neg
        = Except.ok (some ⟨cap, a, b⟩, none) := by
      rw [setupParams, hneg]
      rfl
    have hps : posCacheAtScore (some ⟨cap, a, b⟩) emptyC s
        = [(s.pred, [storedItem false (posItem s)])] := rfl
    have hflat : flattenCache [(s.pred, [storedItem false (posItem s)])]
        = [(s.pred, storedItem false (posItem s))] := by
      simp [flattenCache, sortNat, insertNat, lookupC]
    have h2 := processSample_pos_only ⟨cap, a, b⟩ numClasses emptyC emptyC s
      (by rw [hps]; rfl) (by rw [hps, hflat]; simp)
    rw [hps] at h2
    have h3 : compute_real_cache_size [(s.pred, [storedItem false (posItem s)])]
        = Except.error Err.valueError := by
      have hfT : (storedItem false (posItem s)).featT = Value.tensor es n := by
        rw [show (storedItem false (posItem s)).featT = s.featT from rfl, hft]
      have hlT : (storedItem false (posItem s)).lossT = Value.scalar x := by
        rw [show (storedItem false (posItem s)).lossT = s.lossT from rfl, hlt]
      have hpT : (storedItem false (posItem s)).probMapT = none := rfl
      simp [compute_real_cache_size, metaValues, List.mapM, List.mapM.loop, List.foldlM,
        hfT, hlT, hpT, get_tensor_size, except_bind_ok, except_bind_error]
    have h4 : loopStep (some ⟨cap, a, b⟩) none numClasses
        (emptyC, emptyC, ([] : List ℝ)) (0, s) = Except.error Err.valueError := by
      rw [loopStep]
      dsimp only
      rw [h2, except_bind_ok]
      dsimp only
      rw [if_pos (by rfl), h3, except_bind_error]
    rw [run_test_tda, h1, except_bind_ok, List.enum_cons, List.foldlM_cons]
    dsimp only
    rw [h4, except_bind_error, except_bind_error]
  · intro pp np nCl i st sam r m1 m2 hproc hm1 hm2
    rw [loopStep]
    dsimp only
    rw [hproc, except_bind_ok]
    by_cases hi : (i % 1000 == 0) = true
    · rw [if_pos hi, hm1, except_bind_ok, hm2, except_bind_ok,
        safeDiv, if_neg (Nat.succ_ne_zero i), except_bind_ok,
        safeDiv, if_neg (by simp), except_bind_ok]
    · rw [if_neg hi]

/-- Witness for C7 on a concrete one-sample stream whose loss slot is a
non-tensor scalar. -/
theorem C7_telemetry_failure_aborts_witness :
    offNegCfg.enabled = false
    ∧ exScalarSample.featT = Value.tensor 2 4
    ∧ exScalarSample.lossT = Value.scalar 1
    ∧ run_test_tda ⟨true, some 3, some 1, some 1⟩ offNegCfg 2 [exScalarSample]
        = Except.error Err.valueError :=
  ⟨rfl, rfl, rfl,
   (C7_telemetry_failure_aborts 3 1 1 offNegCfg rfl 2 exScalarSample [] 2 4 1 rfl rfl).1⟩

/-- C7 counterexample: the claim says a telemetry size-computation
failure is logged and skipped and never aborts the adaptation run; on
a concrete stream whose cached loss slot is a non-tensor, the whole
run aborts with that `ValueError`. -/
theorem C7_counterexample_telemetry_aborts_run :
    get_tensor_size (Value.scalar 1) = Except.error Err.valueError
    ∧ run_test_tda goodPosCfg offNegCfg 2 [exScalarSample] = Except.error Err.valueError :=
  ⟨rfl, rfl⟩

end TDA
